import Mathlib

/-!
Verification development for the Gemini API proxy interceptor
(`proxy_interceptor.py`): a Flask-based transparent proxy that forwards
requests to the upstream Gemini API, relays responses (unary and streaming)
back to the caller, and captures request/response snapshots to a log sink.

The embedding models:
* the Python string operations used by the capture reconstruction
  (`str.strip`, `str.split`, `str.startswith`, `str.lower`) over `List Char`;
* `json.loads` as a concrete recursive-descent JSON parser (`jsonDecode`);
  numbers are modelled as integers, which covers all payloads this
  development evaluates;
* the Werkzeug/Flask header and query containers: lookup and membership on
  `request.headers` are case-insensitive (first match wins), and
  `request.args.items()` yields one `(key, first value)` pair per distinct
  key, in first-occurrence order;
* the two route handlers `proxy_request` and `proxy_streaming_request` as
  pure functions of the inbound request, a sink-availability flag and the
  upstream response, returning either the relayed response together with
  the trace of sink writes, or the propagated sink error.
-/

namespace ProxyInterceptor

/-- Characters stripped by Python `str.strip()` (the whitespace class of
`str.isspace` restricted to the code points that can realistically occur in
an HTTP body; every JSON whitespace character is included). -/
def isPySpace (c : Char) : Bool :=
  c = ' ' || c = '\t' || c = '\n' || c = '\r' ||
  c = Char.ofNat 11 || c = Char.ofNat 12 ||
  c = Char.ofNat 28 || c = Char.ofNat 29 || c = Char.ofNat 30 ||
  c = Char.ofNat 31 || c = Char.ofNat 133 || c = Char.ofNat 160

/-- JSON whitespace as skipped by Python's `json.loads` (space, tab,
newline, carriage return). -/
def isJsonWs (c : Char) : Bool :=
  c = ' ' || c = '\t' || c = '\n' || c = '\r'

/-- Python `str.lstrip()`. -/
def lstrip (l : List Char) : List Char := l.dropWhile isPySpace

/-- Python `str.rstrip()`. -/
def rstrip (l : List Char) : List Char := (l.reverse.dropWhile isPySpace).reverse

/-- Python `str.strip()`. -/
def pyStrip (l : List Char) : List Char := rstrip (lstrip l)

/-- Python `str.split('\n')`: the empty string yields one empty piece, and a
trailing newline yields a trailing empty piece. -/
def splitOnNl : List Char → List (List Char)
  | [] => [[]]
  | c :: rest =>
    if c = '\n' then [] :: splitOnNl rest
    else
      match splitOnNl rest with
      | [] => [[c]]
      | line :: more => (c :: line) :: more

/-- Python `str.lower()` on a header name (ASCII lowering suffices for
HTTP header and query names). -/
def lowerStr (s : String) : String := String.mk (s.data.map Char.toLower)

/-! ## JSON values and a model of `json.loads` -/

/-- JSON values as produced by `json.loads`; numbers are modelled as
integers. -/
inductive Json where
  | null
  | bool (b : Bool)
  | num (n : Int)
  | str (s : String)
  | arr (elems : List Json)
  | obj (fields : List (String × Json))

/-- Skip JSON whitespace. -/
def skipWs (l : List Char) : List Char := l.dropWhile isJsonWs

/-- Decode one hexadecimal digit. -/
def hexDigit (c : Char) : Option Nat :=
  if '0' ≤ c ∧ c ≤ '9' then some (c.toNat - '0'.toNat)
  else if 'a' ≤ c ∧ c ≤ 'f' then some (c.toNat - 'a'.toNat + 10)
  else if 'A' ≤ c ∧ c ≤ 'F' then some (c.toNat - 'A'.toNat + 10)
  else none

/-- Parse the body of a JSON string after the opening quote; returns the
decoded characters and the remaining input.  Escapes cover the JSON
single-character escapes and `\uXXXX` outside the surrogate range. -/
def parseStringBody : Nat → List Char → Option (List Char × List Char)
  | 0, _ => none
  | _, [] => none
  | fuel + 1, c :: rest =>
    if c = '"' then some ([], rest)
    else if c = '\\' then
      match rest with
      | [] => none
      | e :: rest2 =>
        if e = 'u' then
          match rest2 with
          | h1 :: h2 :: h3 :: h4 :: rest3 =>
            match hexDigit h1, hexDigit h2, hexDigit h3, hexDigit h4 with
            | some d1, some d2, some d3, some d4 =>
              let code := ((d1 * 16 + d2) * 16 + d3) * 16 + d4
              if code < 0xd800 ∨ 0xdfff < code then
                (parseStringBody fuel rest3).map
                  (fun p => (Char.ofNat code :: p.1, p.2))
              else none
            | _, _, _, _ => none
          | _ => none
        else
          let esc : Option Char :=
            if e = '"' then some '"'
            else if e = '\\' then some '\\'
            else if e = '/' then some '/'
            else if e = 'b' then some (Char.ofNat 8)
            else if e = 'f' then some (Char.ofNat 12)
            else if e = 'n' then some '\n'
            else if e = 'r' then some '\r'
            else if e = 't' then some '\t'
            else none
          match esc with
          | some ec => (parseStringBody fuel rest2).map (fun p => (ec :: p.1, p.2))
          | none => none
    else if c.toNat < 32 then none
    else (parseStringBody fuel rest).map (fun p => (c :: p.1, p.2))

/-- Decimal digit test. -/
def isDigitChar (c : Char) : Bool := '0' ≤ c && c ≤ '9'

/-- Parse a non-empty run of decimal digits. -/
def parseDigits : List Char → Nat → Nat × List Char
  | [], acc => (acc, [])
  | c :: rest, acc =>
    if isDigitChar c then parseDigits rest (acc * 10 + (c.toNat - '0'.toNat))
    else (acc, c :: rest)

/-- Parse a JSON number (integer form). -/
def parseNumber (l : List Char) : Option (Json × List Char) :=
  match l with
  | [] => none
  | c :: rest =>
    if c = '-' then
      match rest with
      | [] => none
      | c2 :: rest2 =>
        if isDigitChar c2 then
          let p := parseDigits (c2 :: rest2) 0
          some (Json.num (-(p.1 : Int)), p.2)
        else none
    else if isDigitChar c then
      let p := parseDigits (c :: rest) 0
      some (Json.num ((p.1 : Nat) : Int), p.2)
    else none

mutual

/-- Parse one JSON value from the input: skip whitespace, then dispatch. -/
def parseValue : Nat → List Char → Option (Json × List Char)
  | 0, _ => none
  | fuel + 1, input => parseValueAfterWs fuel (skipWs input)

/-- Dispatch on the first significant character of a JSON value. -/
def parseValueAfterWs : Nat → List Char → Option (Json × List Char)
  | _, [] => none
  | 0, _ :: _ => none
  | fuel + 1, c :: rest =>
    if c = '{' then parseObjFields fuel rest
    else if c = '[' then parseArrElems fuel rest
    else if c = '"' then
      (parseStringBody (rest.length + 1) rest).map
        (fun p => (Json.str (String.mk p.1), p.2))
    else if List.isPrefixOf ['n', 'u', 'l', 'l'] (c :: rest) then
      some (Json.null, (c :: rest).drop 4)
    else if List.isPrefixOf ['t', 'r', 'u', 'e'] (c :: rest) then
      some (Json.bool true, (c :: rest).drop 4)
    else if List.isPrefixOf ['f', 'a', 'l', 's', 'e'] (c :: rest) then
      some (Json.bool false, (c :: rest).drop 5)
    else parseNumber (c :: rest)

/-- Parse the fields of a JSON object after the opening brace. -/
def parseObjFields : Nat → List Char → Option (Json × List Char)
  | 0, _ => none
  | fuel + 1, input =>
    match skipWs input with
    | [] => none
    | c :: rest =>
      if c = '}' then some (Json.obj [], rest)
      else if c = '"' then
        match parseStringBody (rest.length + 1) rest with
        | none => none
        | some (key, afterKey) =>
          match skipWs afterKey with
          | ':' :: afterColon =>
            match parseValue fuel afterColon with
            | none => none
            | some (v, afterVal) =>
              parseObjMore fuel afterVal [(String.mk key, v)]
          | _ => none
      else none

/-- Parse the remaining fields of a JSON object after one key/value pair. -/
def parseObjMore : Nat → List Char → List (String × Json) →
    Option (Json × List Char)
  | 0, _, _ => none
  | fuel + 1, input, acc =>
    match skipWs input with
    | '}' :: rest => some (Json.obj acc.reverse, rest)
    | ',' :: rest =>
      match skipWs rest with
      | '"' :: afterQuote =>
        match parseStringBody (afterQuote.length + 1) afterQuote with
        | none => none
        | some (key, afterKey) =>
          match skipWs afterKey with
          | ':' :: afterColon =>
            match parseValue fuel afterColon with
            | none => none
            | some (v, afterVal) =>
              parseObjMore fuel afterVal ((String.mk key, v) :: acc)
          | _ => none
      | _ => none
    | _ => none

/-- Parse the elements of a JSON array after the opening bracket. -/
def parseArrElems : Nat → List Char → Option (Json × List Char)
  | 0, _ => none
  | fuel + 1, input =>
    match skipWs input with
    | ']' :: rest => some (Json.arr [], rest)
    | other =>
      match parseValue fuel other with
      | none => none
      | some (v, afterVal) => parseArrMore fuel afterVal [v]

/-- Parse the remaining elements of a JSON array after one element. -/
def parseArrMore : Nat → List Char → List Json → Option (Json × List Char)
  | 0, _, _ => none
  | fuel + 1, input, acc =>
    match skipWs input with
    | ']' :: rest => some (Json.arr acc.reverse, rest)
    | ',' :: rest =>
      match parseValue fuel rest with
      | none => none
      | some (v, afterVal) => parseArrMore fuel afterVal (v :: acc)
    | _ => none

end

/-- Fuel bound for the JSON parser: generous enough for any input it is
asked to parse (each recursion layer consumes input). -/
def jsonFuel (l : List Char) : Nat := 4 * l.length + 4

/-- Model of Python `json.loads`: parse one value and require the remaining
input to be whitespace only; any failure raises `JSONDecodeError`, modelled
as `none`. -/
def jsonDecode (l : List Char) : Option Json :=
  match parseValue (jsonFuel l) l with
  | some (v, rest) => if skipWs rest = [] then some v else none
  | none => none

/-- The characters a JSON value can start with; `parseValue` fails
immediately on any other first significant character. -/
def jsonStartChar (c : Char) : Bool :=
  c = '{' || c = '[' || c = '"' || c = 'n' || c = 't' || c = 'f' ||
  c = '-' || isDigitChar c

/-- The pattern `try: body = json.loads(text) except JSONDecodeError: pass`
with `body` previously the raw text: the decoded value on success, the raw
text on failure. -/
def jsonOrRaw (text : List Char) : Json :=
  match jsonDecode text with
  | some v => v
  | none => Json.str (String.mk text)

/-! ## Streaming capture reconstruction (`generate` in `proxy_streaming_request`) -/

/-- The SSE marker `'data: '` checked by `line.startswith('data: ')`. -/
def sseMarker : List Char := ['d', 'a', 't', 'a', ':', ' ']

/-- The non-empty trimmed lines of the accumulated text:
`[line.strip() for line in full_response_text.strip().split('\n') if line.strip()]`. -/
def pyLines (text : List Char) : List (List Char) :=
  ((splitOnNl (pyStrip text)).map pyStrip).filter (fun l => ¬ l.isEmpty)

/-- The SSE decode loop: for each line starting with `'data: '`, strip the
six-character marker and attempt JSON decoding; failures are dropped. -/
def sseObjects (lines : List (List Char)) : List Json :=
  lines.filterMap
    (fun l => if List.isPrefixOf sseMarker l then jsonDecode (l.drop 6) else none)

/-- The guard `lines and lines[0].startswith('data: ')` of the SSE branch. -/
def firstLineIsSse (text : List Char) : Bool :=
  match pyLines text with
  | [] => false
  | first :: _ => List.isPrefixOf sseMarker first

/-- The response-body reconstruction of the streaming handler (the body of
the `if full_response_text.strip():` block in `generate`). -/
def bodyToLog (text : List Char) : Json :=
  if (pyStrip text).isEmpty then Json.str (String.mk text)
  else if firstLineIsSse text then
    let objs := sseObjects (pyLines text)
    if objs.isEmpty then Json.str (String.mk text) else Json.arr objs
  else jsonOrRaw text

/-! ## Header containers and the header selector -/

/-- A header set as an ordered list of name/value pairs. -/
abbrev HeaderList := List (String × String)

/-- Werkzeug `Headers.__contains__`: membership on `request.headers` is
case-insensitive. -/
def headersContains (hs : HeaderList) (name : String) : Bool :=
  hs.any (fun p => lowerStr p.1 = lowerStr name)

/-- Werkzeug `Headers.__getitem__`: case-insensitive lookup returning the
first match. -/
def headersGet (hs : HeaderList) (name : String) : Option String :=
  (hs.find? (fun p => lowerStr p.1 = lowerStr name)).map Prod.snd

/-- Python `dict` key assignment `d[k] = v`: replace the value in place if
the key is present, else append. -/
def dictInsert (m : HeaderList) (k v : String) : HeaderList :=
  if m.any (fun p => p.1 = k) then
    m.map (fun p => if p.1 = k then (k, v) else p)
  else m ++ [(k, v)]

/-- Python `dict(pairs)`: first-occurrence key order, last value wins. -/
def dictOf (l : HeaderList) : HeaderList :=
  l.foldl (fun m p => dictInsert m p.1 p.2) []

/-- The fixed allow-list `headers_to_forward` of `get_forwarding_headers`. -/
def headersToForward : List String :=
  ["x-goog-api-key", "authorization", "content-type", "x-goog-api-client",
   "x-gemini-api-privileged-user-id", "user-agent", "accept",
   "accept-language", "accept-encoding"]

/-- One iteration of the loop in `get_forwarding_headers`: the `if` branch
uses Werkzeug's case-insensitive membership and lookup and stores the value
under the allow-list name itself; the `elif` branch scans the inbound names
case-insensitively and stores under the first matching original name. -/
def forwardStep (hs : HeaderList) (acc : HeaderList) (name : String) :
    HeaderList :=
  if headersContains hs name then
    match headersGet hs name with
    | some v => dictInsert acc name v
    | none => acc
  else if (hs.map (fun p => lowerStr p.1)).contains (lowerStr name) then
    match hs.find? (fun p => lowerStr p.1 = lowerStr name) with
    | some p => dictInsert acc p.1 p.2
    | none => acc
  else acc

/-- `get_forwarding_headers`: build the outbound header mapping from the
inbound headers by iterating the allow-list. -/
def getForwardingHeaders (hs : HeaderList) : HeaderList :=
  headersToForward.foldl (forwardStep hs) []

/-! ## Response-header filtering (both handlers) -/

/-- The framing header names skipped when relaying upstream response
headers. -/
def framingNames : List String :=
  ["content-length", "transfer-encoding", "connection", "server", "date",
   "content-encoding"]

/-- The filtering loop over `response.headers.items()` with its `seen`
set of lowercased names. -/
def filterRespGo : HeaderList → List String → HeaderList
  | [], _ => []
  | (k, v) :: rest, seen =>
    let kl := lowerStr k
    if framingNames.contains kl then filterRespGo rest seen
    else if seen.contains kl then filterRespGo rest seen
    else (k, v) :: filterRespGo rest (kl :: seen)

/-- `filtered_headers` as computed by both handlers: drop framing headers
case-insensitively and keep only the first occurrence per lowercase name. -/
def filterRespHeaders (hs : HeaderList) : HeaderList := filterRespGo hs []

/-- Spec-side description of §4.4, step one: remove the framing headers
case-insensitively. -/
def removeFraming (hs : HeaderList) : HeaderList :=
  hs.filter (fun p => !(framingNames.contains (lowerStr p.1)))

/-- Spec-side description of §4.4, step two: keep only the first
occurrence among headers sharing a lowercase name. -/
def keepFirstGo : HeaderList → List String → HeaderList
  | [], _ => []
  | (k, v) :: rest, seen =>
    if seen.contains (lowerStr k) then keepFirstGo rest seen
    else (k, v) :: keepFirstGo rest (lowerStr k :: seen)

/-- Spec-side header filtering: framing removal followed by first-occurrence
de-duplication by lowercase name. -/
def specFilterHeaders (hs : HeaderList) : HeaderList :=
  keepFirstGo (removeFraming hs) []

/-! ## Upstream URL construction -/

/-- The fixed base URL for the real Gemini API. -/
def GEMINI_API_BASE_URL : String := "https://generativelanguage.googleapis.com"

/-- Werkzeug `MultiDict.items()` over `request.args`, skipping keys already
produced. -/
def argsItemsGo : List (String × String) → List String → List (String × String)
  | [], _ => []
  | (k, v) :: rest, seen =>
    if seen.contains k then argsItemsGo rest seen
    else (k, v) :: argsItemsGo rest (k :: seen)

/-- Werkzeug `MultiDict.items()` over `request.args`: one pair per distinct
key, carrying the first value, in first-occurrence order. -/
def argsItems (l : List (String × String)) : List (String × String) :=
  argsItemsGo l []

/-- The `gemini_url` construction shared by both handlers: base URL plus
`/v1beta/models/{model}:{action}`, and a `?key=value&...` suffix joined
with `&` when any query parameter is present. -/
def buildGeminiUrl (model action : String) (args : List (String × String)) :
    String :=
  if args.isEmpty then
    GEMINI_API_BASE_URL ++ "/v1beta/models/" ++ model ++ ":" ++ action
  else
    GEMINI_API_BASE_URL ++ "/v1beta/models/" ++ model ++ ":" ++ action ++ "?" ++
      String.intercalate "&" ((argsItems args).map (fun p => p.1 ++ "=" ++ p.2))

/-! ## The two handlers as pure functions -/

/-- The parts of the inbound Flask request the handlers read. -/
structure InboundRequest where
  method : String
  url : String
  headers : HeaderList
  args : List (String × String)
  body : Option Json

/-- A unary upstream response as exposed by `requests`: `content` is the
raw body bytes, `text` its decoded form used by `response.json()`. -/
structure UpstreamResponse where
  status : Nat
  headers : HeaderList
  content : List Nat
  text : List Char

/-- A streaming upstream response: the chunk sequence in arrival order. -/
structure StreamingUpstream where
  status : Nat
  headers : HeaderList
  chunks : List (List Nat)

/-- A request snapshot as assembled for the `-request.json` file. -/
structure RequestSnapshot where
  method : String
  url : String
  headers : HeaderList
  body : Option Json

/-- A response snapshot as assembled for the `-response.json` file. -/
structure ResponseSnapshot where
  statusCode : Nat
  headers : HeaderList
  body : Json

/-- One write to the capture sink, keyed by the epoch correlation key. -/
inductive SinkWrite where
  | request (key : Nat) (snap : RequestSnapshot)
  | response (key : Nat) (snap : ResponseSnapshot)

/-- The correlation key of a sink write. -/
def SinkWrite.key : SinkWrite → Nat
  | .request k _ => k
  | .response k _ => k

/-- Whether a sink write is a request snapshot. -/
def SinkWrite.isRequestWrite : SinkWrite → Bool
  | .request _ _ => true
  | .response _ _ => false

/-- `log_request_response`: writes the request snapshot and the response
snapshot under the same epoch key; when the sink is unavailable (directory
cannot be created or a file cannot be written) the write raises, modelled
as `Except.error`. -/
def logRequestResponse (sinkOk : Bool) (inb : InboundRequest)
    (status : Nat) (respHeaders : HeaderList) (respBody : Json)
    (epoch : Nat) : Except Unit (List SinkWrite) :=
  if sinkOk then
    .ok [.request epoch
           { method := inb.method, url := inb.url,
             headers := dictOf inb.headers, body := inb.body },
         .response epoch
           { statusCode := status, headers := dictOf respHeaders,
             body := respBody }]
  else .error ()

/-- The value relayed to the caller by the unary handler, together with
the upstream URL used and the trace of sink writes. -/
structure UnaryResult where
  upstreamUrl : String
  relayStatus : Nat
  relayHeaders : HeaderList
  relayBody : List Nat
  writes : List SinkWrite

/-- `proxy_request`: the unary handler.  Builds the upstream URL, captures
the epoch, decodes the upstream body for capture (`response.json()` with
raw-text fallback), logs both snapshots — a sink failure propagates, there
is no handler around `log_request_response` — and finally relays the
upstream status, filtered headers and unmodified body bytes. -/
def proxyRequest (sinkOk : Bool) (epoch : Nat) (inb : InboundRequest)
    (model action : String) (up : UpstreamResponse) :
    Except Unit UnaryResult := do
  let url := buildGeminiUrl model action inb.args
  let respBody := jsonOrRaw up.text
  let writes ← logRequestResponse sinkOk inb up.status up.headers respBody epoch
  pure { upstreamUrl := url,
         relayStatus := up.status,
         relayHeaders := filterRespHeaders up.headers,
         relayBody := up.content,
         writes := writes }

/-- The chunks yielded by the streaming `generate` loop: every truthy chunk,
in arrival order (`if chunk:` drops empty keep-alive chunks). -/
def generateChunks (chunks : List (List Nat)) : List (List Nat) :=
  chunks.filter (fun c => !c.isEmpty)

/-- The cumulative capture buffer `full_response_text`: each relayed chunk
decoded by `chunk.decode('utf-8', errors='ignore')` — modelled by the
abstract decoder `dec8` — appended in relay order. -/
def fullResponseText (dec8 : List Nat → List Char)
    (chunks : List (List Nat)) : List Char :=
  (generateChunks chunks).foldl (fun acc c => acc ++ dec8 c) []

/-- The value relayed to the caller by the streaming handler, its relayed
chunk sequence, and the trace of sink writes. -/
structure StreamingResult where
  upstreamUrl : String
  relayStatus : Nat
  relayHeaders : HeaderList
  relayedChunks : List (List Nat)
  writes : List SinkWrite

/-- `proxy_streaming_request`: the streaming handler.  Builds the upstream
URL, captures the epoch, writes the request snapshot immediately, streams
every truthy chunk to the caller while accumulating the capture buffer,
and after exhaustion reconstructs the body and writes the response
snapshot under the same epoch key. -/
def proxyStreamingRequest (sinkOk : Bool) (dec8 : List Nat → List Char)
    (epoch : Nat) (inb : InboundRequest) (model : String)
    (up : StreamingUpstream) : Except Unit StreamingResult := do
  let url := buildGeminiUrl model "streamGenerateContent" inb.args
  let reqWrite : SinkWrite ←
    if sinkOk then
      Except.ok (.request epoch
        { method := inb.method, url := inb.url,
          headers := dictOf inb.headers, body := inb.body })
    else Except.error ()
  let text := fullResponseText dec8 up.chunks
  let respWrite : SinkWrite ←
    if sinkOk then
      Except.ok (.response epoch
        { statusCode := up.status, headers := dictOf up.headers,
          body := bodyToLog text })
    else Except.error ()
  pure { upstreamUrl := url,
         relayStatus := up.status,
         relayHeaders := filterRespHeaders up.headers,
         relayedChunks := generateChunks up.chunks,
         writes := [reqWrite, respWrite] }

/-! ## Dispatcher -/

/-- The two handlers a route can resolve to. -/
inductive RouteTarget where
  | unary (model action : String)
  | streaming (model : String)

/-- The dispatcher over the two route registrations
`/v1beta/models/<path:model>:<string:action>` and
`/v1beta/models/<path:model>:streamGenerateContent` for POST requests:
Werkzeug prefers the rule with the longer static suffix, so the action
literal `streamGenerateContent` resolves to the streaming handler and
every other action literal to the unary handler. -/
def dispatch (model action : String) : RouteTarget :=
  if action = "streamGenerateContent" then .streaming model
  else .unary model action

/-! ## Lemmas about the JSON decoder's failure cases -/

theorem isJsonWs_isPySpace {c : Char} (h : isJsonWs c = true) :
    isPySpace c = true := by
  simp only [isJsonWs, Bool.or_eq_true, decide_eq_true_eq] at h
  rcases h with ((h | h) | h) | h <;> subst h <;> decide

theorem pySpace_not_startChar {c : Char} (h : isPySpace c = true) :
    jsonStartChar c = false := by
  simp only [isPySpace, Bool.or_eq_true, decide_eq_true_eq] at h
  rcases h with (((((((((((h | h) | h) | h) | h) | h) | h) | h) | h) | h) | h) | h) <;>
    subst h <;> decide

theorem parseValue_eq_none {fuel : Nat} {l : List Char}
    (h : ∀ c rest, skipWs l = c :: rest → jsonStartChar c = false) :
    parseValue fuel l = none := by
  cases fuel with
  | zero => rw [parseValue]
  | succ n =>
    rw [parseValue]
    cases hs : skipWs l with
    | nil => rw [parseValueAfterWs]
    | cons c rest =>
      cases n with
      | zero => rw [parseValueAfterWs]
      | succ m =>
      rw [parseValueAfterWs]
      have hc := h c rest hs
      simp only [jsonStartChar, Bool.or_eq_false_iff, decide_eq_false_iff_not] at hc
      obtain ⟨⟨⟨⟨⟨⟨⟨h1, h2⟩, h3⟩, h4⟩, h5⟩, h6⟩, h7⟩, h8⟩ := hc
      rw [if_neg h1, if_neg h2, if_neg h3]
      have hn : List.isPrefixOf ['n', 'u', 'l', 'l'] (c :: rest) = false := by
        simp [List.isPrefixOf]; intro he; exact absurd he.symm h4
      have ht : List.isPrefixOf ['t', 'r', 'u', 'e'] (c :: rest) = false := by
        simp [List.isPrefixOf]; intro he; exact absurd he.symm h5
      have hf : List.isPrefixOf ['f', 'a', 'l', 's', 'e'] (c :: rest) = false := by
        simp [List.isPrefixOf]; intro he; exact absurd he.symm h6
      rw [hn, ht, hf]
      simp only [Bool.false_eq_true, if_false]
      simp [parseNumber, h7, h8]

theorem jsonDecode_eq_none {l : List Char}
    (h : ∀ c rest, skipWs l = c :: rest → jsonStartChar c = false) :
    jsonDecode l = none := by
  unfold jsonDecode
  rw [parseValue_eq_none h]

theorem skipWs_head_cases (l : List Char) :
    skipWs l = l.dropWhile isPySpace ∨
    ∃ c rest, skipWs l = c :: rest ∧ isPySpace c = true := by
  induction l with
  | nil => left; rfl
  | cons a t ih =>
    by_cases hj : isJsonWs a = true
    · have hp : isPySpace a = true := isJsonWs_isPySpace hj
      rcases ih with ih | ⟨c, rest, hsk, hsp⟩
      · left
        simp only [skipWs, List.dropWhile_cons, hj, hp, if_true] at ih ⊢
        exact ih
      · right
        refine ⟨c, rest, ?_, hsp⟩
        simp only [skipWs, List.dropWhile_cons, hj, if_true] at hsk ⊢
        exact hsk
    · by_cases hp : isPySpace a = true
      · right
        refine ⟨a, t, ?_, hp⟩
        simp only [skipWs, List.dropWhile_cons, hj]
        simp [Bool.not_eq_true] at hj
        simp [hj]
      · left
        simp only [Bool.not_eq_true] at hj hp
        simp only [skipWs, List.dropWhile_cons, hj, hp]
        simp

theorem jsonDecode_none_of_pyHead {l : List Char} {c : Char}
    (h : (l.dropWhile isPySpace).head? = some c)
    (hc : jsonStartChar c = false) : jsonDecode l = none := by
  apply jsonDecode_eq_none
  intro c' rest' hs
  rcases skipWs_head_cases l with heq | ⟨c2, r2, hsk, hsp⟩
  · rw [heq] at hs
    rw [hs] at h
    simp only [List.head?_cons, Option.some.injEq] at h
    rw [h]; exact hc
  · rw [hsk] at hs
    obtain ⟨he, -⟩ := List.cons.inj hs
    rw [← he]; exact pySpace_not_startChar hsp

theorem jsonDecode_none_of_all_space {l : List Char}
    (h : l.dropWhile isPySpace = []) : jsonDecode l = none := by
  apply jsonDecode_eq_none
  intro c' rest' hs
  rcases skipWs_head_cases l with heq | ⟨c2, r2, hsk, hsp⟩
  · rw [heq, h] at hs; cases hs
  · rw [hsk] at hs
    obtain ⟨he, -⟩ := List.cons.inj hs
    rw [← he]; exact pySpace_not_startChar hsp

/-! ## Lemmas about `pyStrip`, `splitOnNl` and `pyLines` -/

theorem rstrip_isPrefix (l : List Char) : rstrip l <+: l := by
  have h1 : (rstrip l).reverse <:+ l.reverse := by
    unfold rstrip
    rw [List.reverse_reverse]
    exact List.dropWhile_suffix _
  exact List.reverse_suffix.mp h1

theorem rstrip_eq_nil {l : List Char} (h : rstrip l = []) :
    ∀ c ∈ l, isPySpace c = true := by
  unfold rstrip at h
  rw [List.reverse_eq_nil_iff] at h
  rw [List.dropWhile_eq_nil_iff] at h
  intro c hc
  exact h c (List.mem_reverse.mpr hc)

theorem head?_dropWhile_not {α : Type} {p : α → Bool} {l : List α} {c : α}
    (h : (l.dropWhile p).head? = some c) : p c = false := by
  induction l with
  | nil => cases h
  | cons a t ih =>
    rw [List.dropWhile_cons] at h
    by_cases hp : p a = true
    · rw [if_pos hp] at h; exact ih h
    · simp only [Bool.not_eq_true] at hp
      rw [hp] at h
      simp only [Bool.false_eq_true, if_false, List.head?_cons,
        Option.some.injEq] at h
      rw [← h]; exact hp

theorem pyStrip_head {l : List Char} {c : Char} {r : List Char}
    (h : pyStrip l = c :: r) :
    (l.dropWhile isPySpace).head? = some c ∧ isPySpace c = false := by
  unfold pyStrip lstrip at h
  have hpre := rstrip_isPrefix (l.dropWhile isPySpace)
  rw [h] at hpre
  obtain ⟨t, ht⟩ := hpre
  constructor
  · rw [← ht]; rfl
  · exact @head?_dropWhile_not Char isPySpace l c (by rw [← ht]; rfl)

theorem pyStrip_eq_nil_dropWhile {l : List Char} (h : pyStrip l = []) :
    l.dropWhile isPySpace = [] := by
  unfold pyStrip lstrip at h
  cases hd : l.dropWhile isPySpace with
  | nil => rfl
  | cons a t =>
    exfalso
    rw [hd] at h
    have hall := rstrip_eq_nil h a (List.mem_cons_self a t)
    have hnot : isPySpace a = false :=
      @head?_dropWhile_not Char isPySpace l a (by rw [hd]; rfl)
    rw [hall] at hnot
    cases hnot

theorem splitOnNl_ne_nil (l : List Char) : splitOnNl l ≠ [] := by
  cases l with
  | nil => simp [splitOnNl]
  | cons c rest =>
    unfold splitOnNl
    by_cases hc : c = '\n'
    · simp [hc]
    · cases hsp : splitOnNl rest <;> simp [hc, hsp]

theorem pyLines_eq_nil_of_strip_nil {l : List Char} (h : pyStrip l = []) :
    pyLines l = [] := by
  unfold pyLines
  rw [h]
  rfl

theorem pyStrip_cons_head {c : Char} {line : List Char}
    (hc : isPySpace c = false) : ∃ w, pyStrip (c :: line) = c :: w := by
  have hl : lstrip (c :: line) = c :: line := by
    unfold lstrip
    rw [List.dropWhile_cons, hc]
    simp
  cases hr : rstrip (c :: line) with
  | nil =>
    exfalso
    have := rstrip_eq_nil hr c (List.mem_cons_self c line)
    rw [this] at hc; cases hc
  | cons c2 w =>
    have hpre := rstrip_isPrefix (c :: line)
    rw [hr] at hpre
    obtain ⟨t, ht⟩ := hpre
    have : c2 = c := by
      have := List.cons.inj (by simpa using ht)
      exact this.1
    refine ⟨w, ?_⟩
    unfold pyStrip
    rw [hl, hr, this]

theorem pyLines_head {l : List Char} {f : List Char} {fs : List (List Char)}
    (h : pyLines l = f :: fs) :
    ∃ c, f.head? = some c ∧ (l.dropWhile isPySpace).head? = some c ∧
      isPySpace c = false := by
  cases hstrip : pyStrip l with
  | nil => rw [pyLines_eq_nil_of_strip_nil hstrip] at h; cases h
  | cons c s' =>
    obtain ⟨hhead, hspace⟩ := pyStrip_head hstrip
    refine ⟨c, ?_, hhead, hspace⟩
    have hcn : ¬ c = '\n' := by
      intro hc
      rw [hc] at hspace
      simp [isPySpace] at hspace
    unfold pyLines at h
    rw [hstrip] at h
    cases hsp : splitOnNl s' with
    | nil => exact absurd hsp (splitOnNl_ne_nil s')
    | cons line more =>
      have hsplit : splitOnNl (c :: s') = (c :: line) :: more := by
        unfold splitOnNl
        rw [if_neg hcn, hsp]
      rw [hsplit] at h
      obtain ⟨w, hw⟩ := @pyStrip_cons_head c line hspace
      rw [List.map_cons, hw, List.filter_cons] at h
      simp only [List.isEmpty_cons, Bool.not_false, if_true] at h
      obtain ⟨hf, -⟩ := List.cons.inj h
      rw [← hf]
      rfl

theorem jsonDecode_none_of_sse {l : List Char}
    (h : firstLineIsSse l = true) : jsonDecode l = none := by
  unfold firstLineIsSse at h
  cases hl : pyLines l with
  | nil => rw [hl] at h; cases h
  | cons f fs =>
    rw [hl] at h
    obtain ⟨c, hf, hdrop, -⟩ := pyLines_head hl
    have hcd : c = 'd' := by
      cases f with
      | nil => cases h
      | cons a t =>
        simp only [List.head?_cons, Option.some.injEq] at hf
        simp only [sseMarker, List.isPrefixOf, Bool.and_eq_true,
          beq_iff_eq] at h
        rw [← hf]; exact h.1.symm
    rw [hcd] at hdrop
    exact jsonDecode_none_of_pyHead hdrop (by decide)

/-! ## Claim C1: SSE reconstruction -/

/-- C1 (amended): for every accumulated streaming text whose first
non-empty trimmed line begins with `'data: '`, **provided at least one
`data: ` line JSON-decodes successfully**, the reconstructed capture body
is the ordered sequence of JSON values obtained by stripping the prefix
and decoding each `data: ` line, failures silently dropped; in particular
the two concrete inputs of the claim reconstruct to `[{"a":1}, {"a":2}]`
and `[{"a":1}]` respectively. -/
theorem claim1_sse_reconstruction :
    (∀ text : List Char, firstLineIsSse text = true →
      (sseObjects (pyLines text)).isEmpty = false →
      bodyToLog text = Json.arr (sseObjects (pyLines text)))
    ∧ bodyToLog ("data: \x7b\"a\":1\x7d\ndata: \x7b\"a\":2\x7d\n").data
        = Json.arr [Json.obj [("a", Json.num 1)], Json.obj [("a", Json.num 2)]]
    ∧ bodyToLog ("data: \x7b\"a\":1\x7d\ndata: not-json\n").data
        = Json.arr [Json.obj [("a", Json.num 1)]] := by
  refine ⟨?_, by rfl, by rfl⟩
  intro text h hne
  have hstrip : (pyStrip text).isEmpty = false := by
    cases he : (pyStrip text).isEmpty
    · rfl
    · exfalso
      have hn := pyLines_eq_nil_of_strip_nil (List.isEmpty_iff.mp he)
      unfold firstLineIsSse at h
      rw [hn] at h
      cases h
  unfold bodyToLog
  simp [hstrip, h, hne]

/-- C1 counterexample: when every `data: ` line fails to decode, the code
keeps the raw accumulated text as the body, not the (empty) decoded
sequence claimed. -/
theorem claim1_counterexample :
    firstLineIsSse ("data: not-json\n").data = true ∧
    sseObjects (pyLines ("data: not-json\n").data) = [] ∧
    bodyToLog ("data: not-json\n").data = Json.str "data: not-json\n" ∧
    Json.str "data: not-json\n" ≠ Json.arr [] :=
  ⟨by rfl, by rfl, by rfl, fun h => Json.noConfusion h⟩

/-- C1 witness: the amended theorem applied to the first concrete input. -/
theorem claim1_witness :
    bodyToLog ("data: \x7b\"a\":1\x7d\ndata: \x7b\"a\":2\x7d\n").data
      = Json.arr (sseObjects (pyLines
          ("data: \x7b\"a\":1\x7d\ndata: \x7b\"a\":2\x7d\n").data)) :=
  claim1_sse_reconstruction.1 _ (by rfl) (by rfl)

/-! ## Claim C2: whole-document decode fallback -/

/-- C2: whenever the SSE branch yields an empty sequence or the first
non-empty trimmed line does not begin with `'data: '`, the reconstructed
body is the whole-text JSON decode when it succeeds and the raw
accumulated text otherwise. -/
theorem claim2_whole_decode_fallback :
    ∀ text : List Char,
      firstLineIsSse text = false ∨
        (sseObjects (pyLines text)).isEmpty = true →
      bodyToLog text = jsonOrRaw text := by
  intro text h
  by_cases hstrip : (pyStrip text).isEmpty = true
  · have hnil := List.isEmpty_iff.mp hstrip
    have hdec : jsonDecode text = none :=
      jsonDecode_none_of_all_space (pyStrip_eq_nil_dropWhile hnil)
    unfold bodyToLog jsonOrRaw
    rw [hdec]
    simp [hstrip]
  · have hstrip' : (pyStrip text).isEmpty = false := by
      cases he : (pyStrip text).isEmpty
      · rfl
      · exact absurd he hstrip
    cases hsse : firstLineIsSse text with
    | false =>
      unfold bodyToLog
      simp [hstrip', hsse]
    | true =>
      rcases h with hfalse | hempty
      · rw [hsse] at hfalse; cases hfalse
      · have hdec := jsonDecode_none_of_sse hsse
        unfold bodyToLog jsonOrRaw
        rw [hdec]
        simp [hstrip', hsse, hempty]

/-- C2 witness: the fallback theorem applied to a plain-text body. -/
theorem claim2_witness :
    bodyToLog ("plain text, not json").data
      = jsonOrRaw ("plain text, not json").data :=
  claim2_whole_decode_fallback _ (Or.inl (by rfl))

/-! ## Claim C3: the header selector -/

theorem contains_true_get_some {hs : HeaderList} {name : String}
    (h : headersContains hs name = true) :
    ∃ v, headersGet hs name = some v := by
  unfold headersContains at h
  rw [List.any_eq_true] at h
  obtain ⟨p, hp, hpp⟩ := h
  unfold headersGet
  have : (hs.find? (fun q => lowerStr q.1 = lowerStr name)).isSome := by
    rw [List.find?_isSome]
    exact ⟨p, hp, hpp⟩
  obtain ⟨q, hq⟩ := Option.isSome_iff_exists.mp this
  exact ⟨q.2, by rw [hq]; rfl⟩

theorem contains_false_get_none {hs : HeaderList} {name : String}
    (h : headersContains hs name = false) :
    headersGet hs name = none := by
  unfold headersContains at h
  rw [List.any_eq_false] at h
  unfold headersGet
  rw [List.find?_eq_none.mpr h]
  rfl

theorem dictInsert_fresh {m : HeaderList} {k v : String}
    (h : ∀ p ∈ m, p.1 ≠ k) : dictInsert m k v = m ++ [(k, v)] := by
  unfold dictInsert
  rw [if_neg]
  intro hany
  rw [List.any_eq_true] at hany
  obtain ⟨p, hp, hpk⟩ := hany
  simp only [decide_eq_true_eq] at hpk
  exact h p hp hpk

theorem foldl_forwardStep (hs : HeaderList) :
    ∀ (names : List String) (acc : HeaderList),
      names.Nodup →
      (∀ n ∈ names, ∀ p ∈ acc, p.1 ≠ n) →
      names.foldl (forwardStep hs) acc =
        acc ++ names.filterMap
          (fun n => (headersGet hs n).map (fun v => (n, v))) := by
  intro names
  induction names with
  | nil => intro acc _ _; simp
  | cons n ns ih =>
    intro acc hnd hfresh
    obtain ⟨hn_notin, hnd'⟩ := List.nodup_cons.mp hnd
    rw [List.foldl_cons, List.filterMap_cons]
    cases hc : headersContains hs n with
    | true =>
      obtain ⟨v, hv⟩ := contains_true_get_some hc
      have hstep : forwardStep hs acc n = acc ++ [(n, v)] := by
        unfold forwardStep
        rw [if_pos hc, hv]
        exact dictInsert_fresh (fun p hp => hfresh n (List.mem_cons_self n ns) p hp)
      rw [hstep, hv]
      have hfresh' : ∀ n' ∈ ns, ∀ p ∈ acc ++ [(n, v)], p.1 ≠ n' := by
        intro n' hn' p hp
        rcases List.mem_append.mp hp with hpa | hpb
        · exact hfresh n' (List.mem_cons_of_mem n hn') p hpa
        · rw [List.mem_singleton.mp hpb]
          intro he
          have he' : n = n' := he
          exact hn_notin (he' ▸ hn')
      rw [ih (acc ++ [(n, v)]) hnd' hfresh']
      simp [List.append_assoc]
    | false =>
      have helif : ((hs.map (fun p => lowerStr p.1)).contains (lowerStr n)) = false := by
        unfold headersContains at hc
        rw [List.any_eq_false] at hc
        rw [List.contains_eq_any_beq, List.any_eq_false]
        intro y hy
        obtain ⟨p, hp, hyp⟩ := List.mem_map.mp hy
        simp only [beq_iff_eq]
        intro he
        exact (hc p hp) (by simp [hyp, he])
      have hstep : forwardStep hs acc n = acc := by
        unfold forwardStep
        rw [if_neg (by rw [hc]; exact Bool.false_ne_true), if_neg]
        rw [helif]
        exact Bool.false_ne_true
      rw [hstep, contains_false_get_none hc]
      exact ih acc hnd' (fun n' hn' => hfresh n' (List.mem_cons_of_mem n hn'))

/-- The header selector, described extensionally: one entry per allow-list
name that has a case-insensitive inbound match, carrying the first matching
value, under the allow-list spelling, in allow-list order. -/
theorem getForwardingHeaders_eq (hs : HeaderList) :
    getForwardingHeaders hs =
      headersToForward.filterMap
        (fun n => (headersGet hs n).map (fun v => (n, v))) := by
  unfold getForwardingHeaders
  rw [foldl_forwardStep hs headersToForward [] (by decide) (by simp)]
  simp

/-- C3 (amended): the outbound mapping contains only allow-listed names —
each forwarded header appears under the allow-list's (lowercase) spelling
of the name, not under the inbound request's original case — with the
value of the first case-insensitive inbound match, and allow-listed names
with no inbound match are simply omitted. -/
theorem claim3_header_selector :
    (∀ hs : HeaderList, getForwardingHeaders hs =
        headersToForward.filterMap
          (fun n => (headersGet hs n).map (fun v => (n, v))))
    ∧ (∀ hs : HeaderList, ∀ p ∈ getForwardingHeaders hs,
        p.1 ∈ headersToForward)
    ∧ (∀ (hs : HeaderList) (n : String), headersContains hs n = false →
        ∀ p ∈ getForwardingHeaders hs, p.1 ≠ n) := by
  refine ⟨getForwardingHeaders_eq, ?_, ?_⟩
  · intro hs p hp
    rw [getForwardingHeaders_eq] at hp
    rw [List.mem_filterMap] at hp
    obtain ⟨n, hn, hsome⟩ := hp
    cases hg : headersGet hs n with
    | none => rw [hg] at hsome; cases hsome
    | some v =>
      rw [hg] at hsome
      simp only [Option.map_some', Option.some.injEq] at hsome
      rw [← hsome]
      exact hn
  · intro hs n hcf p hp he
    rw [getForwardingHeaders_eq] at hp
    rw [List.mem_filterMap] at hp
    obtain ⟨n', hn', hsome⟩ := hp
    cases hg : headersGet hs n' with
    | none => rw [hg] at hsome; cases hsome
    | some v =>
      rw [hg] at hsome
      simp only [Option.map_some', Option.some.injEq] at hsome
      have hn'n : n' = n := by rw [← he, ← hsome]
      rw [hn'n] at hg
      rw [contains_false_get_none hcf] at hg
      cases hg

/-- C3 counterexample: an inbound header sent as `X-Goog-Api-Key` is
forwarded under the name `x-goog-api-key`, which is not the original name
case present on the inbound request. -/
theorem claim3_counterexample :
    getForwardingHeaders [("X-Goog-Api-Key", "k")] = [("x-goog-api-key", "k")]
    ∧ ([("X-Goog-Api-Key", "k")] : HeaderList).map Prod.fst = ["X-Goog-Api-Key"]
    ∧ "x-goog-api-key" ∉ (["X-Goog-Api-Key"] : List String) :=
  ⟨by rfl, by rfl, by decide⟩

/-- C3 witness: the selector equality at a concrete inbound set, and the
omission clause applied at a concrete absent name. -/
theorem claim3_witness :
    getForwardingHeaders [("content-type", "x")] =
      headersToForward.filterMap
        (fun n => (headersGet [("content-type", "x")] n).map (fun v => (n, v)))
    ∧ ("content-type" : String) ≠ "authorization" :=
  ⟨claim3_header_selector.1 _,
   claim3_header_selector.2.2 [("content-type", "x")] "authorization" (by rfl)
     ("content-type", "x") (List.mem_singleton.mpr rfl)⟩

/-! ## Claim C5: unary relay -/

theorem filterRespGo_eq_keepFirst :
    ∀ (hs : HeaderList) (seen : List String),
      filterRespGo hs seen = keepFirstGo (removeFraming hs) seen := by
  intro hs
  induction hs with
  | nil => intro seen; rfl
  | cons p rest ih =>
    intro seen
    obtain ⟨k, v⟩ := p
    unfold removeFraming at ih ⊢
    rw [List.filter_cons]
    by_cases hf : framingNames.contains (lowerStr k) = true
    · rw [filterRespGo]
      simp only [hf, Bool.not_true, Bool.false_eq_true, if_false, if_true]
      exact ih seen
    · have hf' : framingNames.contains (lowerStr k) = false := by
        cases h2 : framingNames.contains (lowerStr k)
        · rfl
        · exact absurd h2 hf
      rw [filterRespGo]
      simp only [hf', Bool.not_false, Bool.false_eq_true, if_false, if_true]
      rw [keepFirstGo]
      by_cases hseen : seen.contains (lowerStr k) = true
      · simp only [hseen, if_true]
        exact ih seen
      · have hseen' : seen.contains (lowerStr k) = false := by
          cases h2 : seen.contains (lowerStr k)
          · rfl
          · exact absurd h2 hseen
        simp only [hseen', Bool.false_eq_true, if_false]
        rw [ih (lowerStr k :: seen)]

/-- The response-header filter, stated as the spec describes it. -/
theorem filterRespHeaders_eq_spec (hs : HeaderList) :
    filterRespHeaders hs = specFilterHeaders hs :=
  filterRespGo_eq_keepFirst hs []

/-- C5: the unary handler relays the upstream body bytes unchanged, the
upstream status code, and exactly the upstream headers with the framing
names removed case-insensitively and only the first occurrence kept per
lowercase name. -/
theorem claim5_unary_relay :
    ∀ (epoch : Nat) (inb : InboundRequest) (model action : String)
      (up : UpstreamResponse),
      ∃ r : UnaryResult,
        proxyRequest true epoch inb model action up = Except.ok r ∧
        r.relayBody = up.content ∧
        r.relayStatus = up.status ∧
        r.relayHeaders = specFilterHeaders up.headers := by
  intro epoch inb model action up
  exact ⟨_, rfl, rfl, rfl, filterRespHeaders_eq_spec up.headers⟩

/-! ## Claim C4: sink failures and the unary relay -/

/-- C4 evidence (code bug): `proxy_request` calls `log_request_response`
with no exception handling, so when the capture sink fails the error
propagates out of the handler and the caller never receives the upstream
status, headers or body — the relay is blocked, contradicting the claim. -/
theorem claim4_sink_failure_blocks_relay :
    ∀ (epoch : Nat) (inb : InboundRequest) (model action : String)
      (up : UpstreamResponse),
      proxyRequest false epoch inb model action up = Except.error () := by
  intro _ _ _ _ _
  rfl

/-! ## Claim C6: streaming relay order -/

theorem flatten_generateChunks (chunks : List (List Nat)) :
    (generateChunks chunks).flatten = chunks.flatten := by
  unfold generateChunks
  induction chunks with
  | nil => rfl
  | cons c t ih =>
    by_cases hc : c.isEmpty = true
    · have hce : c = [] := List.isEmpty_iff.mp hc
      subst hce
      simpa [List.filter_cons] using ih
    · have hc' : c.isEmpty = false := by
        cases h2 : c.isEmpty
        · rfl
        · exact absurd h2 hc
      simp [List.filter_cons, hc', ih]

theorem foldl_append_flatten (dec8 : List Nat → List Char) :
    ∀ (l : List (List Nat)) (acc : List Char),
      l.foldl (fun a c => a ++ dec8 c) acc = acc ++ (l.map dec8).flatten := by
  intro l
  induction l with
  | nil => intro acc; simp
  | cons c t ih => intro acc; simp [ih, List.append_assoc]

/-- C6: concatenating the chunks the streaming handler relays, in relay
order, reproduces the exact bytes produced by upstream in arrival order,
and the cumulative capture buffer is built from the same chunks in the
same order, each decoded by the UTF-8-with-ignore decoder `dec8`. -/
theorem claim6_streaming_relay :
    ∀ (dec8 : List Nat → List Char) (epoch : Nat) (inb : InboundRequest)
      (model : String) (up : StreamingUpstream),
      ∃ r : StreamingResult,
        proxyStreamingRequest true dec8 epoch inb model up = Except.ok r ∧
        r.relayedChunks.flatten = up.chunks.flatten ∧
        fullResponseText dec8 up.chunks = (r.relayedChunks.map dec8).flatten := by
  intro dec8 epoch inb model up
  refine ⟨_, rfl, flatten_generateChunks up.chunks, ?_⟩
  unfold fullResponseText
  rw [foldl_append_flatten]
  rfl

/-! ## Claim C7: upstream URL construction -/

theorem argsItemsGo_sublist :
    ∀ (l : List (String × String)) (seen : List String),
      List.Sublist (argsItemsGo l seen) l := by
  intro l
  induction l with
  | nil => intro seen; exact List.Sublist.refl []
  | cons p rest ih =>
    intro seen
    obtain ⟨k, v⟩ := p
    rw [argsItemsGo]
    by_cases hs : seen.contains k = true
    · rw [if_pos hs]
      exact (ih seen).trans (List.sublist_cons_self (k, v) rest)
    · rw [if_neg hs]
      exact List.Sublist.cons₂ (k, v) (ih (k :: seen))

theorem argsItemsGo_keys :
    ∀ (l : List (String × String)) (seen : List String),
      ((argsItemsGo l seen).map Prod.fst).Nodup ∧
      ∀ k ∈ (argsItemsGo l seen).map Prod.fst, k ∉ seen := by
  intro l
  induction l with
  | nil =>
    intro seen
    exact ⟨List.nodup_nil, by simp [argsItemsGo]⟩
  | cons p rest ih =>
    intro seen
    obtain ⟨k, v⟩ := p
    rw [argsItemsGo]
    by_cases hs : seen.contains k = true
    · rw [if_pos hs]
      exact ih seen
    · have hs' : k ∉ seen := by simpa using hs
      rw [if_neg hs]
      obtain ⟨ihn, ihs⟩ := ih (k :: seen)
      rw [List.map_cons]
      constructor
      · rw [List.nodup_cons]
        exact ⟨fun hk => (ihs k hk) (List.mem_cons_self k seen), ihn⟩
      · intro k' hk'
        rcases List.mem_cons.mp hk' with he | hm
        · subst he; exact hs'
        · exact fun hmem => (ihs k' hm) (List.mem_cons_of_mem k hmem)

/-- C7 (amended): the upstream URL is the fixed base plus
`/v1beta/models/{model}:{action}`, with no `?` suffix when no query
parameter is present; when parameters are present the suffix joins
`key=value` pieces with `&`, without additional percent-encoding, but over
`request.args.items()` — one entry per distinct key carrying its first
value, in first-occurrence order — so repeated parameter keys beyond the
first occurrence are dropped rather than forwarded verbatim. -/
theorem claim7_url_construction :
    ∀ (model action : String) (args : List (String × String)),
      (args = [] → buildGeminiUrl model action args =
        GEMINI_API_BASE_URL ++ "/v1beta/models/" ++ model ++ ":" ++ action) ∧
      (args ≠ [] → buildGeminiUrl model action args =
        GEMINI_API_BASE_URL ++ "/v1beta/models/" ++ model ++ ":" ++ action ++
          "?" ++ String.intercalate "&"
            ((argsItems args).map (fun p => p.1 ++ "=" ++ p.2))) ∧
      ((argsItems args).map Prod.fst).Nodup ∧
      List.Sublist (argsItems args) args := by
  intro model action args
  refine ⟨?_, ?_, (argsItemsGo_keys args []).1, argsItemsGo_sublist args []⟩
  · intro h; subst h; rfl
  · intro h
    unfold buildGeminiUrl
    rw [if_neg (fun hh => h (List.isEmpty_iff.mp hh))]

/-- C7 counterexample: with the duplicate-key query `a=1&a=2` the code
builds the suffix `?a=1`, not the claimed verbatim join `?a=1&a=2`. -/
theorem claim7_counterexample :
    buildGeminiUrl "m" "act" [("a", "1"), ("a", "2")] =
      "https://generativelanguage.googleapis.com/v1beta/models/m:act?a=1"
    ∧ ("https://generativelanguage.googleapis.com/v1beta/models/m:act?a=1"
        : String) ≠
      "https://generativelanguage.googleapis.com/v1beta/models/m:act?a=1&a=2" :=
  ⟨by rfl, by decide⟩

/-- C7 witness: the amended construction applied to a concrete request
with one query parameter. -/
theorem claim7_witness :
    buildGeminiUrl "gemini-pro" "countTokens" [("key", "abc")] =
      GEMINI_API_BASE_URL ++ "/v1beta/models/" ++ "gemini-pro" ++ ":" ++
        "countTokens" ++ "?" ++ String.intercalate "&"
          ((argsItems [("key", "abc")]).map (fun p => p.1 ++ "=" ++ p.2)) :=
  (claim7_url_construction "gemini-pro" "countTokens" [("key", "abc")]).2.1
    (by decide)

/-! ## Claim C8: capture invariant -/

/-- C8: with the sink available, every accepted request — unary or
streaming — produces exactly one request-snapshot write and exactly one
response-snapshot write, both keyed by the epoch captured at request
start. -/
theorem claim8_capture_invariant :
    ∀ (epoch : Nat) (inb : InboundRequest) (model action : String)
      (up : UpstreamResponse) (dec8 : List Nat → List Char)
      (sup : StreamingUpstream),
      (∃ r : UnaryResult,
        proxyRequest true epoch inb model action up = Except.ok r ∧
        (r.writes.filter (fun w => w.isRequestWrite)).length = 1 ∧
        (r.writes.filter (fun w => !w.isRequestWrite)).length = 1 ∧
        ∀ w ∈ r.writes, w.key = epoch) ∧
      (∃ r : StreamingResult,
        proxyStreamingRequest true dec8 epoch inb model sup = Except.ok r ∧
        (r.writes.filter (fun w => w.isRequestWrite)).length = 1 ∧
        (r.writes.filter (fun w => !w.isRequestWrite)).length = 1 ∧
        ∀ w ∈ r.writes, w.key = epoch) := by
  intro epoch inb model action up dec8 sup
  constructor
  · refine ⟨_, rfl, rfl, rfl, ?_⟩
    intro w hw
    simp only [List.mem_cons, List.not_mem_nil, or_false] at hw
    rcases hw with h | h <;> subst h <;> rfl
  · refine ⟨_, rfl, rfl, rfl, ?_⟩
    intro w hw
    simp only [List.mem_cons, List.not_mem_nil, or_false] at hw
    rcases hw with h | h <;> subst h <;> rfl

/-! ## Claim C9: dispatch -/

/-- C9: the dispatcher routes every action literal except
`streamGenerateContent` to the unary handler and `streamGenerateContent`
to the streaming handler; in particular the two concrete routes of the
claim resolve as stated. -/
theorem claim9_dispatch :
    ∀ model action : String,
      (action ≠ "streamGenerateContent" →
        dispatch model action = RouteTarget.unary model action) ∧
      dispatch model "streamGenerateContent" = RouteTarget.streaming model ∧
      dispatch "gemini-pro" "countTokens" =
        RouteTarget.unary "gemini-pro" "countTokens" ∧
      dispatch "gemini-pro" "streamGenerateContent" =
        RouteTarget.streaming "gemini-pro" := by
  intro model action
  refine ⟨?_, ?_, by rfl, by rfl⟩
  · intro h
    unfold dispatch
    rw [if_neg h]
  · unfold dispatch
    rw [if_pos rfl]

/-- C9 witness: the generic clause applied to the `countTokens` action. -/
theorem claim9_witness :
    dispatch "gemini-pro" "embedContent" =
      RouteTarget.unary "gemini-pro" "embedContent" :=
  (claim9_dispatch "gemini-pro" "embedContent").1 (by decide)

/-! ## Claim C10: request snapshots record the full inbound header set -/

theorem mem_keys_dictInsert (m : HeaderList) (a v k : String) :
    k ∈ (dictInsert m a v).map Prod.fst ↔ k ∈ m.map Prod.fst ∨ k = a := by
  unfold dictInsert
  by_cases hany : m.any (fun p => p.1 = a) = true
  · rw [if_pos hany]
    have hmap : (m.map (fun p => if p.1 = a then (a, v) else p)).map Prod.fst
        = m.map Prod.fst := by
      rw [List.map_map]
      apply List.map_congr_left
      intro p hp
      by_cases hpa : p.1 = a
      · simp [hpa]
      · simp [hpa]
    rw [hmap]
    constructor
    · exact Or.inl
    · rintro (h | h)
      · exact h
      · subst h
        rw [List.any_eq_true] at hany
        obtain ⟨p, hp, hpa⟩ := hany
        simp only [decide_eq_true_eq] at hpa
        exact hpa ▸ List.mem_map_of_mem Prod.fst hp
  · rw [if_neg hany]
    rw [List.map_append, List.mem_append]
    simp

theorem dictOf_keys (l : HeaderList) :
    ∀ k, k ∈ (dictOf l).map Prod.fst ↔ k ∈ l.map Prod.fst := by
  suffices h : ∀ (l2 : HeaderList) (acc : HeaderList) (k : String),
      k ∈ ((l2.foldl (fun m p => dictInsert m p.1 p.2) acc).map Prod.fst) ↔
        k ∈ acc.map Prod.fst ∨ k ∈ l2.map Prod.fst by
    intro k
    unfold dictOf
    rw [h l [] k]
    simp
  intro l2
  induction l2 with
  | nil => intro acc k; simp
  | cons p rest ih =>
    intro acc k
    rw [List.foldl_cons, ih (dictInsert acc p.1 p.2) k, mem_keys_dictInsert,
      List.map_cons, List.mem_cons]
    tauto

/-- C10: both handlers write a request snapshot whose header mapping is
`dict(request.headers)` — the complete inbound header set, every inbound
name included (API keys and authorization values among them) — and not the
filtered outbound mapping: a non-allow-listed inbound header appears in
the snapshot while being absent from the forwarded headers. -/
theorem claim10_snapshot_full_headers :
    ∀ (epoch : Nat) (inb : InboundRequest) (model action : String)
      (up : UpstreamResponse) (dec8 : List Nat → List Char)
      (sup : StreamingUpstream),
      (∃ r : UnaryResult,
        proxyRequest true epoch inb model action up = Except.ok r ∧
        r.writes.head? = some (SinkWrite.request epoch
          { method := inb.method, url := inb.url,
            headers := dictOf inb.headers, body := inb.body })) ∧
      (∃ r : StreamingResult,
        proxyStreamingRequest true dec8 epoch inb model sup = Except.ok r ∧
        r.writes.head? = some (SinkWrite.request epoch
          { method := inb.method, url := inb.url,
            headers := dictOf inb.headers, body := inb.body })) ∧
      (∀ k, k ∈ inb.headers.map Prod.fst ↔ k ∈ (dictOf inb.headers).map Prod.fst) ∧
      ("x-custom-secret" ∈
        (dictOf [("x-goog-api-key", "K"), ("x-custom-secret", "S")]).map
          Prod.fst) ∧
      ("x-custom-secret" ∉
        (getForwardingHeaders
          [("x-goog-api-key", "K"), ("x-custom-secret", "S")]).map Prod.fst) := by
  intro epoch inb model action up dec8 sup
  refine ⟨⟨_, rfl, rfl⟩, ⟨_, rfl, rfl⟩,
    fun k => (dictOf_keys inb.headers k).symm, by decide, by decide⟩

end ProxyInterceptor
